import Mathlib

/-!
# Verification of the GWAS summary-statistics QC pipeline (`1.QC/QC.py`)

Shallow embedding of the coordinate-harmonization-and-filtering pipeline:
cleaning (numeric coercion, dropna, integer casts), liftover between the
hg19 and hg38 builds, the MHC region filter, the MAF filter, the three
export writers, and the per-file orchestration with its resume-skip check.

Conventions of the embedding:
* a raw table cell is `Option String` (`none` = a missing value, NaN);
* `pd.to_numeric(..., errors := coerce)` on a cell is modelled by a plain
  decimal parser `toNumeric` returning `Option ℚ` (values that fail to
  parse as decimal numbers become missing);
* machine floats are modelled by `ℚ`;
* `astype(int)` on a float is truncation toward zero (`truncQ`);
* the pandas row index is modelled by the field `idx : ℕ` assigned in
  input order, which is how the source code itself tracks rows across
  `df.loc[valid_indices]` selections;
* a `pyliftover` chain is a function `String → ℤ → Option ℤ` giving the
  position of the first hit of `convert_coordinate` (the code uses only
  `new_coords[0][1]` and discards the mapped chromosome);
* an uncaught pandas `KeyError` (access to an absent column) is the
  `RunResult.keyError` outcome, which aborts the whole run.
-/

attribute [local semireducible] Rat.mul Rat.add Rat.sub Rat.inv

namespace QC

/-- Digit value of a character, `none` when it is not a decimal digit. -/
def charDigit (c : Char) : Option ℕ :=
  if c.isDigit then some (c.toNat - 48) else none

/-- Parse a nonempty all-digit character list as a natural number. -/
def parseNatDigits (cs : List Char) : Option ℕ :=
  if cs.isEmpty then none
  else
    cs.foldl (fun acc c =>
      match acc, charDigit c with
      | some n, some d => some (n * 10 + d)
      | _, _ => none) (some 0)

/-- Split a character list at every `'.'` (the analogue of
`"…".split(".")` used to recognise a decimal fraction). -/
def splitDot (cs : List Char) : List (List Char) :=
  match cs with
  | [] => [[]]
  | c :: rest =>
    match splitDot rest with
    | [] => [[]]
    | g :: gs => if c = '.' then [] :: g :: gs else (c :: g) :: gs

/-- Model of `pd.to_numeric(errors="coerce")` on one string cell: parse an
optional sign, an integer part, and an optional fractional part; any string
outside this decimal grammar (e.g. `"X"`, `"chr6"`, `"123abc"`) coerces to
`none` (NaN). -/
def toNumeric (s : String) : Option ℚ :=
  let (sgn, body) : ℚ × List Char :=
    match s.data with
    | '-' :: rest => (-1, rest)
    | '+' :: rest => (1, rest)
    | cs => (1, cs)
  match splitDot body with
  | [intPart] => (parseNatDigits intPart).map (fun n => sgn * (n : ℚ))
  | [intPart, fracPart] =>
    match parseNatDigits intPart, parseNatDigits fracPart with
    | some i, some f =>
      some (sgn * ((i : ℚ) + (f : ℚ) / ((10 : ℚ) ^ fracPart.length)))
    | _, _ => none
  | _ => none

/-- Numeric coercion of a raw cell: a missing cell stays missing. -/
def coerceCell (o : Option String) : Option ℚ := o.bind toNumeric

/-- `astype(int)` on a float value: truncation toward zero. -/
def truncQ (q : ℚ) : ℤ := if 0 ≤ q then ⌊q⌋ else ⌈q⌉

/-- One raw row of an input summary-statistics table.  Fields correspond to
the columns `SNP, effect_allele, other_allele, eaf, beta, se, pval, chr,
pos, samplesize`; a field's content is only meaningful when the table's
`Schema` marks that column as present. -/
structure RawRow where
  snp : Option String
  effect_allele : Option String
  other_allele : Option String
  eaf : Option String
  beta : Option String
  se : Option String
  pval : Option String
  chr : Option String
  pos : Option String
  samplesize : Option String
deriving Repr, DecidableEq

/-- Which columns the input table actually has (`c in df.columns`). -/
structure Schema where
  snp : Bool
  effect_allele : Bool
  other_allele : Bool
  eaf : Bool
  beta : Bool
  se : Bool
  pval : Bool
  chr : Bool
  pos : Bool
  samplesize : Bool
deriving Repr, DecidableEq

/-- The schema of a table carrying all ten known columns. -/
def fullSchema : Schema :=
  ⟨true, true, true, true, true, true, true, true, true, true⟩

/-- `df.dropna(subset=existing_check_cols)`: a row is kept iff every
critical column that is present in the table holds a non-missing value;
for the numeric columns (`eaf, beta, se, pval, chr, pos`) the value tested
is the one after `pd.to_numeric` coercion.  `samplesize` is not critical
and is never checked. -/
def keepRow (sch : Schema) (r : RawRow) : Bool :=
  (!sch.snp || r.snp.isSome) &&
  (!sch.effect_allele || r.effect_allele.isSome) &&
  (!sch.other_allele || r.other_allele.isSome) &&
  (!sch.eaf || (coerceCell r.eaf).isSome) &&
  (!sch.beta || (coerceCell r.beta).isSome) &&
  (!sch.se || (coerceCell r.se).isSome) &&
  (!sch.pval || (coerceCell r.pval).isSome) &&
  (!sch.chr || (coerceCell r.chr).isSome) &&
  (!sch.pos || (coerceCell r.pos).isSome)

/-- A cleaned row, after numeric coercion, dropna, the integer casts of
`pos` and `chr`, the backup column `pos_original`, and the string column
`temp_chr`.  The fields `chr`, `temp_chr`, `pos`, `pos_original` carry
defaults when the corresponding source column is absent (the code only
creates them under `if col in df.columns`, and every later unconditional
access to an absent column is modelled as a `keyError` outcome). -/
structure CleanRow where
  idx : ℕ
  snp : Option String
  effect_allele : Option String
  other_allele : Option String
  eaf : Option ℚ
  beta : Option ℚ
  se : Option ℚ
  pval : Option ℚ
  chr : ℤ
  temp_chr : String
  pos : ℤ
  pos_original : ℤ
  samplesize : Option String
deriving Repr, DecidableEq

/-- Build the cleaned row at pandas index `i` from a raw row that survived
`dropna`: coerce the numeric columns, cast `pos` and `chr` to integers,
back up `pos_original := pos`, and render `temp_chr` as the decimal string
of the integer `chr`. -/
def toClean (sch : Schema) (i : ℕ) (r : RawRow) : CleanRow :=
  let chrZ : ℤ := truncQ ((coerceCell r.chr).getD 0)
  let posZ : ℤ := truncQ ((coerceCell r.pos).getD 0)
  { idx := i
    snp := r.snp
    effect_allele := r.effect_allele
    other_allele := r.other_allele
    eaf := coerceCell r.eaf
    beta := coerceCell r.beta
    se := coerceCell r.se
    pval := coerceCell r.pval
    chr := if sch.chr then chrZ else 0
    temp_chr := if sch.chr then toString chrZ else ""
    pos := if sch.pos then posZ else 0
    pos_original := if sch.pos then posZ else 0
    samplesize := r.samplesize }

/-- Cleaning pass over the raw rows starting at pandas index `i`:
rows failing the dropna check are removed, the survivors are cleaned. -/
def cleanRows (sch : Schema) : ℕ → List RawRow → List CleanRow
  | _, [] => []
  | i, r :: rs =>
    if keepRow sch r then toClean sch i r :: cleanRows sch (i + 1) rs
    else cleanRows sch (i + 1) rs

/-- The full cleaning stage (`深度数据清洗`) of one table. -/
def cleanTable (sch : Schema) (raws : List RawRow) : List CleanRow :=
  cleanRows sch 0 raws

/-- The configuration block at the top of the script (fixed at run start):
the declared build of the input data, the MHC exclusion region in hg19
coordinates, and the MAF threshold. -/
structure Config where
  input_build : String
  mhc_chrom : String
  mhc_start : ℤ
  mhc_end : ℤ
  maf_threshold : ℚ
deriving Repr, DecidableEq

/-- The literal configuration of the script: `INPUT_BUILD = "hg38"`,
`MHC_CHROM = "6"`, `MHC_START = 28477797`, `MHC_END = 33448354`,
`MAF_THRESHOLD = 0.01`. -/
def defaultConfig : Config :=
  { input_build := "hg38"
    mhc_chrom := "6"
    mhc_start := 28477797
    mhc_end := 33448354
    maf_threshold := 1 / 100 }

/-- A liftover chain: `convert_coordinate` restricted to what the code
uses, namely the position `new_coords[0][1]` of the first hit, or `none`
when the hit list is empty. -/
abbrev Chain : Type := String → ℤ → Option ℤ

/-- One liftover step of the row-wise conversion loop: query the chain at
(`"chr" + temp_chr`, `pos`); on a hit keep the row with the mapped
position (the row's other fields, including `pos_original`, `chr` and
`temp_chr`, are untouched — the code discards the mapped chromosome), on a
miss drop the row from this view. -/
def liftStep (lo : Chain) (r : CleanRow) : Option CleanRow :=
  (lo ("chr" ++ r.temp_chr) r.pos).map (fun p => { r with pos := p })

/-- The mask of the MHC region filter:
`(temp_chr == MHC_CHROM) & (pos >= MHC_START) & (pos <= MHC_END)`. -/
def mask_mhc (cfg : Config) (r : CleanRow) : Bool :=
  r.temp_chr == cfg.mhc_chrom &&
  cfg.mhc_start ≤ r.pos && r.pos ≤ cfg.mhc_end

/-- `df_hg19 = df_hg19[~mask_mhc]`: keep the rows outside the region. -/
def regionFilter (cfg : Config) (rows : List CleanRow) : List CleanRow :=
  rows.filter (fun r => !mask_mhc cfg r)

/-- Minor allele frequency of one row: `np.minimum(eaf, 1 - eaf)`.  After
cleaning, a present `eaf` column is never missing, so `getD 0` only
extracts the guaranteed value (as `.values` does). -/
def mafOf (r : CleanRow) : ℚ :=
  min (r.eaf.getD 0) (1 - r.eaf.getD 0)

/-- The mask of the frequency filter: `maf_values < MAF_THRESHOLD`
(strict). -/
def mask_low_maf (cfg : Config) (r : CleanRow) : Bool :=
  decide (mafOf r < cfg.maf_threshold)

/-- `df_hg19 = df_hg19[~mask_low_maf]`: keep the rows at or above the
threshold. -/
def mafFilter (cfg : Config) (rows : List CleanRow) : List CleanRow :=
  rows.filter (fun r => !mask_low_maf cfg r)

/-- A row of the two tab-delimited build exports (`1.hg19` and `2.hg38`):
the cleaned columns without the temporary columns `temp_chr` (deleted
after filtering) and `pos_original` (dropped from the hg19 export, and
deleted from the hg38 export after restoring `pos` from it).  `idx` is the
pandas row index (provenance of the row in the input file). -/
structure OutRow where
  idx : ℕ
  snp : Option String
  effect_allele : Option String
  other_allele : Option String
  eaf : Option ℚ
  beta : Option ℚ
  se : Option ℚ
  pval : Option ℚ
  chr : ℤ
  pos : ℤ
  samplesize : Option String
deriving Repr, DecidableEq

/-- Project a pipeline row onto the export column set. -/
def toOutRow (r : CleanRow) : OutRow :=
  { idx := r.idx
    snp := r.snp
    effect_allele := r.effect_allele
    other_allele := r.other_allele
    eaf := r.eaf
    beta := r.beta
    se := r.se
    pval := r.pval
    chr := r.chr
    pos := r.pos
    samplesize := r.samplesize }

/-- The hg38 export row when the input build is hg38: the strategy
`df_hg38_final["pos"] = df_hg38_final["pos_original"]` restores the cached
original coordinate. -/
def toRestoredRow (r : CleanRow) : OutRow :=
  { toOutRow r with pos := r.pos_original }

/-- A row of the FUMA export after the fixed renaming
`SNP→SNP, chr→CHR, pos→BP, effect_allele→A1, other_allele→A2, pval→P,
beta→BETA, se→SE, samplesize→N`. -/
structure FumaRow where
  SNP : Option String
  CHR : ℤ
  BP : ℤ
  A1 : Option String
  A2 : Option String
  P : Option ℚ
  BETA : Option ℚ
  SE : Option ℚ
  N : Option String
  idx : ℕ
deriving Repr, DecidableEq

/-- Restriction plus renaming of one filtered row to the FUMA schema. -/
def toFumaRow (r : CleanRow) : FumaRow :=
  { SNP := r.snp
    CHR := r.chr
    BP := r.pos
    A1 := r.effect_allele
    A2 := r.other_allele
    P := r.pval
    BETA := r.beta
    SE := r.se
    N := r.samplesize
    idx := r.idx }

/-- `missing_cols = [c for c in fuma_cols if c not in df_hg19.columns]`:
the FUMA export is generated exactly when all nine source columns of the
renaming are present. -/
def fumaColsPresent (sch : Schema) : Bool :=
  sch.snp && sch.chr && sch.pos && sch.effect_allele && sch.other_allele &&
  sch.pval && sch.beta && sch.se && sch.samplesize

/-- The three exports of one successfully processed file, plus the number
of `convert_coordinate` invocations made for it. -/
structure PipeOutput where
  hg19out : List OutRow
  fuma : Option (List FumaRow)
  hg38out : List OutRow
  mapperCalls : ℕ
deriving Repr, DecidableEq

/-- Outcome of running the per-file pipeline on one readable table.
`keyError n` is an uncaught pandas `KeyError` (access to an absent
column), which aborts the whole batch run; `n` records how many chain
invocations had happened before the crash.  `skippedEmpty` and
`skippedBadBuild` are the two in-pipeline `continue` paths. -/
inductive RunResult
  | keyError (callsMade : ℕ)
  | skippedEmpty
  | skippedBadBuild
  | done (out : PipeOutput)
deriving Repr, DecidableEq

/-- Step 1 (hg38 input) followed by steps 2–3: lift every cleaned row
from hg38 to hg19 (dropping unmapped rows), then apply the MHC region
filter and the MAF filter in hg19 coordinates. -/
def hg38Filtered (cfg : Config) (lo_38_to_19 : Chain) (sch : Schema)
    (raws : List RawRow) : List CleanRow :=
  mafFilter cfg (regionFilter cfg
    ((cleanTable sch raws).filterMap (liftStep lo_38_to_19)))

/-- The three exports for an hg38 input table: the hg19 export of step 4,
the FUMA export of step 5 (when all nine source columns exist), and the
step-6 hg38 export that restores `pos_original`.  The conversion loop runs
once per cleaned row. -/
def hg38Output (cfg : Config) (lo_38_to_19 : Chain) (sch : Schema)
    (raws : List RawRow) : PipeOutput :=
  let filtered := hg38Filtered cfg lo_38_to_19 sch raws
  { hg19out := filtered.map toOutRow
    fuma :=
      if fumaColsPresent sch then some (filtered.map toFumaRow) else none
    hg38out := filtered.map toRestoredRow
    mapperCalls := (cleanTable sch raws).length }

/-- Step 1 (hg19 input) followed by steps 2–3: the cleaned table already
is hg19, so only the MHC region filter and the MAF filter apply. -/
def hg19Filtered (cfg : Config) (sch : Schema) (raws : List RawRow) :
    List CleanRow :=
  mafFilter cfg (regionFilter cfg (cleanTable sch raws))

/-- The three exports for an hg19 input table: the hg19 export of step 4,
the FUMA export of step 5, and the step-6 hg38 export computed by a second
liftover pass (hg19 → hg38) over the filtered rows, dropping unmapped
rows from that export only. -/
def hg19Output (cfg : Config) (lo_19_to_38 : Chain) (sch : Schema)
    (raws : List RawRow) : PipeOutput :=
  let filtered := hg19Filtered cfg sch raws
  { hg19out := filtered.map toOutRow
    fuma :=
      if fumaColsPresent sch then some (filtered.map toFumaRow) else none
    hg38out := (filtered.filterMap (liftStep lo_19_to_38)).map toOutRow
    mapperCalls := filtered.length }

/-- The per-file pipeline of `main`, from the cleaned table on: the
empty-table skip, the build branch of step 1, the filters of steps 2–3,
and the exports of steps 4–6.  Accesses to the columns `temp_chr`, `pos`
and `eaf` are unconditional in the code; when the corresponding input
column is absent they raise `KeyError` (column `temp_chr` exists exactly
when `chr` does).  In the hg38 branch the `eaf` access happens after the
conversion loop, so `cleaned.length` chain calls precede that crash. -/
def processTable (cfg : Config) (lo_38_to_19 lo_19_to_38 : Chain)
    (sch : Schema) (raws : List RawRow) : RunResult :=
  let cleaned := cleanTable sch raws
  if cleaned.isEmpty then .skippedEmpty
  else if cfg.input_build == "hg38" then
    if !sch.chr then .keyError 0
    else if !sch.pos then .keyError 0
    else if !sch.eaf then .keyError cleaned.length
    else .done (hg38Output cfg lo_38_to_19 sch raws)
  else if cfg.input_build == "hg19" then
    if !sch.chr then .keyError 0
    else if !sch.pos then .keyError 0
    else if !sch.eaf then .keyError 0
    else .done (hg19Output cfg lo_19_to_38 sch raws)
  else .skippedBadBuild

/-- What the orchestrator did for one discovered file: whether the
resume-skip fired, the list of output paths written (in write order), the
number of chain invocations, and whether the run crashed on this file. -/
structure FileReport where
  skipped : Bool
  writes : List String
  mapperCalls : ℕ
  crashed : Bool
deriving Repr, DecidableEq

/-- The output paths written for one pipeline outcome, in the order of
steps 4–6: the hg19 export, the FUMA archive when generated, the hg38
export. -/
def writesOf (fileName : String) : RunResult → List String
  | .done out =>
    ["1.hg19/" ++ fileName] ++
    (match out.fuma with
     | some _ => ["3.FUMA/" ++ fileName ++ ".gz"]
     | none => []) ++
    ["2.hg38/" ++ fileName]
  | _ => []

/-- Chain invocations reported for one pipeline outcome. -/
def callsOf : RunResult → ℕ
  | .done out => out.mapperCalls
  | .keyError n => n
  | _ => 0

/-- One iteration of the batch loop for a discovered file: the resume
check `os.path.exists(os.path.join("2.hg38", file_name))` skips the file
outright; a failed read (`readResult = none`) skips it; otherwise the full
per-file pipeline runs.  `existsFile` is the prior state of the output
directories. -/
def runOneFile (cfg : Config) (lo_38_to_19 lo_19_to_38 : Chain)
    (existsFile : String → Bool) (fileName : String)
    (readResult : Option (Schema × List RawRow)) : FileReport :=
  if existsFile ("2.hg38/" ++ fileName) then
    { skipped := true, writes := [], mapperCalls := 0, crashed := false }
  else
    match readResult with
    | none => { skipped := false, writes := [], mapperCalls := 0, crashed := false }
    | some (sch, raws) =>
      let res := processTable cfg lo_38_to_19 lo_19_to_38 sch raws
      { skipped := false
        writes := writesOf fileName res
        mapperCalls := callsOf res
        crashed := match res with | .keyError _ => true | _ => false }

/-! ### Concrete fixtures used by witnesses and counterexamples -/

/-- A well-formed raw row: every column parses, chromosome 1, position
100, `eaf = 0.3`. -/
def rawGood : RawRow :=
  { snp := some "rs1"
    effect_allele := some "A"
    other_allele := some "G"
    eaf := some "0.3"
    beta := some "0.1"
    se := some "0.1"
    pval := some "0.5"
    chr := some "1"
    pos := some "100"
    samplesize := some "1000" }

/-- A raw row identical to `rawGood` except that its allele frequency is
`2.5`, outside `[0, 1]`. -/
def rawBadEaf : RawRow := { rawGood with eaf := some "2.5" }

/-- A raw row identical to `rawGood` except that its chromosome is the
canonical non-numeric token `"X"`. -/
def rawChrX : RawRow := { rawGood with chr := some "X" }

/-- A raw row identical to `rawGood` except that its chromosome carries a
`"chr"` prefix. -/
def rawChrPref : RawRow := { rawGood with chr := some "chr1" }

/-- A chain that maps every queried coordinate to itself. -/
def loId : Chain := fun _ p => some p

/-- A chain that maps every queried coordinate seven bases downstream. -/
def loShift : Chain := fun _ p => some (p + 7)

/-- The schema of a table that has every column except `chr`. -/
def schemaNoChr : Schema := { fullSchema with chr := false }

/-- A prior output state in which only the reference-build (hg19) export
of `a.txt` exists. -/
def exHg19Only : String → Bool := fun s => s == "1.hg19/a.txt"

/-- A prior output state in which only the final-stage hg38 export of
`a.txt` exists. -/
def exHg38Only : String → Bool := fun s => s == "2.hg38/a.txt"

/-- Restriction/renaming of an hg19-export row to the FUMA schema (the
composite of `toOutRow` followed by this map is `toFumaRow`). -/
def outRowToFuma (o : OutRow) : FumaRow :=
  { SNP := o.snp
    CHR := o.chr
    BP := o.pos
    A1 := o.effect_allele
    A2 := o.other_allele
    P := o.pval
    BETA := o.beta
    SE := o.se
    N := o.samplesize
    idx := o.idx }

/-! ### Helper lemmas -/

theorem mask_mhc_eq_true {cfg : Config} {r : CleanRow} :
    mask_mhc cfg r = true ↔
      (r.temp_chr = cfg.mhc_chrom ∧ cfg.mhc_start ≤ r.pos ∧ r.pos ≤ cfg.mhc_end) := by
  simp [mask_mhc, and_assoc]

theorem mask_low_maf_eq_true {cfg : Config} {r : CleanRow} :
    mask_low_maf cfg r = true ↔
      min (r.eaf.getD 0) (1 - r.eaf.getD 0) < cfg.maf_threshold := by
  simp [mask_low_maf, mafOf]

theorem liftStep_eq_some {lo : Chain} {r r' : CleanRow}
    (h : liftStep lo r = some r') :
    ∃ p, lo ("chr" ++ r.temp_chr) r.pos = some p ∧ r' = { r with pos := p } := by
  unfold liftStep at h
  cases hq : lo ("chr" ++ r.temp_chr) r.pos with
  | none => rw [hq] at h; cases h
  | some p =>
    rw [hq] at h
    exact ⟨p, rfl, (Option.some_inj.mp h).symm⟩

theorem mem_cleanRows {sch : Schema} {i : ℕ} {raws : List RawRow} {r : CleanRow}
    (h : r ∈ cleanRows sch i raws) :
    ∃ j raw, raw ∈ raws ∧ keepRow sch raw = true ∧ r = toClean sch j raw := by
  induction raws generalizing i with
  | nil => simp [cleanRows] at h
  | cons a as ih =>
    unfold cleanRows at h
    by_cases hk : keepRow sch a
    · rw [if_pos hk] at h
      rcases List.mem_cons.mp h with h1 | h2
      · exact ⟨i, a, List.mem_cons_self a as, hk, h1⟩
      · obtain ⟨j, raw, hm, hk2, he⟩ := ih h2
        exact ⟨j, raw, List.mem_cons_of_mem _ hm, hk2, he⟩
    · rw [if_neg hk] at h
      obtain ⟨j, raw, hm, hk2, he⟩ := ih h
      exact ⟨j, raw, List.mem_cons_of_mem _ hm, hk2, he⟩

theorem keepRow_fields {sch : Schema} {raw : RawRow} (hk : keepRow sch raw = true) :
    (sch.snp = true → raw.snp.isSome = true) ∧
    (sch.effect_allele = true → raw.effect_allele.isSome = true) ∧
    (sch.other_allele = true → raw.other_allele.isSome = true) ∧
    (sch.eaf = true → (coerceCell raw.eaf).isSome = true) ∧
    (sch.beta = true → (coerceCell raw.beta).isSome = true) ∧
    (sch.se = true → (coerceCell raw.se).isSome = true) ∧
    (sch.pval = true → (coerceCell raw.pval).isSome = true) ∧
    (sch.chr = true → (coerceCell raw.chr).isSome = true) ∧
    (sch.pos = true → (coerceCell raw.pos).isSome = true) := by
  simp only [keepRow, Bool.and_eq_true, Bool.or_eq_true, Bool.not_eq_true'] at hk
  refine ⟨?_, ?_, ?_, ?_, ?_, ?_, ?_, ?_, ?_⟩ <;> intro hs <;> simp_all

theorem cleanTable_fields {sch : Schema} {raws : List RawRow} {r : CleanRow}
    (h : r ∈ cleanTable sch raws) :
    (sch.snp = true → r.snp.isSome = true) ∧
    (sch.effect_allele = true → r.effect_allele.isSome = true) ∧
    (sch.other_allele = true → r.other_allele.isSome = true) ∧
    (sch.eaf = true → r.eaf.isSome = true) ∧
    (sch.beta = true → r.beta.isSome = true) ∧
    (sch.se = true → r.se.isSome = true) ∧
    (sch.pval = true → r.pval.isSome = true) ∧
    (sch.chr = true → r.temp_chr = toString r.chr) ∧
    r.pos_original = r.pos := by
  obtain ⟨j, raw, _, hk, rfl⟩ := mem_cleanRows h
  have hf := keepRow_fields hk
  refine ⟨?_, ?_, ?_, ?_, ?_, ?_, ?_, ?_, ?_⟩
  · intro hs; simpa [toClean] using hf.1 hs
  · intro hs; simpa [toClean] using hf.2.1 hs
  · intro hs; simpa [toClean] using hf.2.2.1 hs
  · intro hs; simpa [toClean] using hf.2.2.2.1 hs
  · intro hs; simpa [toClean] using hf.2.2.2.2.1 hs
  · intro hs; simpa [toClean] using hf.2.2.2.2.2.1 hs
  · intro hs; simpa [toClean] using hf.2.2.2.2.2.2.1 hs
  · intro hs; simp [toClean, hs]
  · simp [toClean]

theorem mem_filters {cfg : Config} {base : List CleanRow} {r : CleanRow}
    (h : r ∈ mafFilter cfg (regionFilter cfg base)) :
    r ∈ base ∧ mask_mhc cfg r = false ∧ mask_low_maf cfg r = false := by
  unfold mafFilter regionFilter at h
  rcases List.mem_filter.mp h with ⟨h1, h2⟩
  rcases List.mem_filter.mp h1 with ⟨h3, h4⟩
  exact ⟨h3, by simpa using h4, by simpa using h2⟩

theorem processTable_done {cfg : Config} {lo_38_to_19 lo_19_to_38 : Chain}
    {sch : Schema} {raws : List RawRow} {out : PipeOutput}
    (h : processTable cfg lo_38_to_19 lo_19_to_38 sch raws = .done out) :
    sch.chr = true ∧ sch.pos = true ∧ sch.eaf = true ∧
    ((cfg.input_build = "hg38" ∧ out = hg38Output cfg lo_38_to_19 sch raws) ∨
     (cfg.input_build = "hg19" ∧ out = hg19Output cfg lo_19_to_38 sch raws)) := by
  simp only [processTable] at h
  by_cases h0 : (cleanTable sch raws).isEmpty
  · rw [if_pos h0] at h; cases h
  rw [if_neg h0] at h
  by_cases hb : cfg.input_build = "hg38"
  · rw [if_pos (by simp [hb])] at h
    by_cases hc : sch.chr = true
    · by_cases hp : sch.pos = true
      · by_cases he : sch.eaf = true
        · rw [if_neg (by simp [hc]), if_neg (by simp [hp]),
            if_neg (by simp [he])] at h
          exact ⟨hc, hp, he,
            .inl ⟨hb, ((RunResult.done.injEq _ _).mp h).symm⟩⟩
        · rw [if_neg (by simp [hc]), if_neg (by simp [hp]),
            if_pos (by simpa using he)] at h
          exact RunResult.noConfusion h
      · rw [if_neg (by simp [hc]), if_pos (by simpa using hp)] at h
        exact RunResult.noConfusion h
    · rw [if_pos (by simpa using hc)] at h
      exact RunResult.noConfusion h
  · rw [if_neg (by simp [hb])] at h
    by_cases hb2 : cfg.input_build = "hg19"
    · rw [if_pos (by simp [hb2])] at h
      by_cases hc : sch.chr = true
      · by_cases hp : sch.pos = true
        · by_cases he : sch.eaf = true
          · rw [if_neg (by simp [hc]), if_neg (by simp [hp]),
              if_neg (by simp [he])] at h
            exact ⟨hc, hp, he,
              .inr ⟨hb2, ((RunResult.done.injEq _ _).mp h).symm⟩⟩
          · rw [if_neg (by simp [hc]), if_neg (by simp [hp]),
              if_pos (by simpa using he)] at h
            exact RunResult.noConfusion h
        · rw [if_neg (by simp [hc]), if_pos (by simpa using hp)] at h
          exact RunResult.noConfusion h
      · rw [if_pos (by simpa using hc)] at h
        exact RunResult.noConfusion h
    · rw [if_neg (by simp [hb2])] at h
      exact RunResult.noConfusion h

/-! ### Claim theorems -/

/-- C1. The Region Filter, applied to a table in hg19 (BuildA)
coordinates, removes a record exactly when its chromosome token equals the
exclusion region's chromosome and `start ≤ position ≤ end` with both
bounds inclusive; hence a record at exactly `start` or exactly `end` is
removed, while a record at `start - 1` or `end + 1` is retained. -/
theorem region_filter_mem_iff (cfg : Config) (rows : List CleanRow) (r : CleanRow) :
    r ∈ regionFilter cfg rows ↔
      r ∈ rows ∧
        ¬(r.temp_chr = cfg.mhc_chrom ∧
          cfg.mhc_start ≤ r.pos ∧ r.pos ≤ cfg.mhc_end) := by
  constructor
  · intro h
    rcases List.mem_filter.mp h with ⟨h1, h2⟩
    rw [Bool.not_eq_true'] at h2
    refine ⟨h1, fun hm => ?_⟩
    rw [mask_mhc_eq_true.mpr hm] at h2
    cases h2
  · rintro ⟨h1, h2⟩
    refine List.mem_filter.mpr ⟨h1, ?_⟩
    rw [Bool.not_eq_true']
    by_cases hm : mask_mhc cfg r = true
    · exact absurd (mask_mhc_eq_true.mp hm) h2
    · simpa using hm

/-- C2. The Frequency Filter computes `maf = min(eaf, 1 - eaf)` per
record and removes the record exactly when `maf < threshold` (strict);
a record with `maf = threshold` is retained. -/
theorem maf_filter_mem_iff (cfg : Config) (rows : List CleanRow) (r : CleanRow) :
    r ∈ mafFilter cfg rows ↔
      r ∈ rows ∧
        ¬(min (r.eaf.getD 0) (1 - r.eaf.getD 0) < cfg.maf_threshold) := by
  constructor
  · intro h
    rcases List.mem_filter.mp h with ⟨h1, h2⟩
    rw [Bool.not_eq_true'] at h2
    refine ⟨h1, fun hm => ?_⟩
    rw [mask_low_maf_eq_true.mpr hm] at h2
    cases h2
  · rintro ⟨h1, h2⟩
    refine List.mem_filter.mpr ⟨h1, ?_⟩
    rw [Bool.not_eq_true']
    by_cases hm : mask_low_maf cfg r = true
    · exact absurd (mask_low_maf_eq_true.mp hm) h2
    · simpa using hm

/-- C4 counterexample. Cleaning performs no range check on the
allele frequency: the row `rawBadEaf` with `eaf = 2.5` survives the
cleaning stage with `eaf = 5/2 ∉ [0, 1]`, refuting the claim that every
record retained after cleaning has `effect_allele_frequency ∈ [0, 1]`. -/
theorem cleaning_keeps_out_of_range_eaf :
    (cleanTable fullSchema [rawBadEaf]).map CleanRow.eaf = [some (5 / 2)] ∧
    ¬ ((5 : ℚ) / 2 ≤ 1) := by
  constructor
  · decide
  · decide

/-- C4 amended. Every record retained after cleaning has a
non-missing, correctly typed value in each critical column that the table
has: string identifiers and alleles are present, the numeric statistics
(`eaf`, `beta`, `se`, `pval`) are parsed rationals, `pos` is an integer
(by construction, with `pos_original` equal to it), and `chr` carries the
canonical integer-string token `temp_chr`.  No `[0, 1]` range restriction
on `eaf` is established by cleaning (see the counterexample); that range
only holds after the MAF filter. -/
theorem cleaning_retained_rows_typed (sch : Schema) (raws : List RawRow)
    (r : CleanRow) (hr : r ∈ cleanTable sch raws) :
    (sch.snp = true → r.snp.isSome = true) ∧
    (sch.effect_allele = true → r.effect_allele.isSome = true) ∧
    (sch.other_allele = true → r.other_allele.isSome = true) ∧
    (sch.eaf = true → r.eaf.isSome = true) ∧
    (sch.beta = true → r.beta.isSome = true) ∧
    (sch.se = true → r.se.isSome = true) ∧
    (sch.pval = true → r.pval.isSome = true) ∧
    (sch.chr = true → r.temp_chr = toString r.chr) ∧
    r.pos_original = r.pos :=
  cleanTable_fields hr

/-- Witness for C4 (amended) at a concrete cleaned row. -/
theorem cleaning_retained_rows_typed_witness :
    (toClean fullSchema 0 rawGood).eaf.isSome = true ∧
    (toClean fullSchema 0 rawGood).temp_chr =
      toString (toClean fullSchema 0 rawGood).chr := by
  have h := cleaning_retained_rows_typed fullSchema [rawGood]
    (toClean fullSchema 0 rawGood) (by decide)
  exact ⟨h.2.2.2.1 rfl, h.2.2.2.2.2.2.2.1 rfl⟩

/-- C6 counterexample. Cleaning does not strip a `"chr"` prefix and
does not keep non-numeric canonical chromosome tokens: the rows with
`chr = "X"` and `chr = "chr1"` — otherwise identical to the retained row
`rawGood` — are coerced to missing by `pd.to_numeric` and dropped, so
`"X"`/`"Y"` are never values of retained records. -/
theorem chr_x_and_prefixed_rows_dropped :
    rawChrX.chr = some "X" ∧ rawChrPref.chr = some "chr1" ∧
    keepRow fullSchema rawGood = true ∧
    cleanTable fullSchema [rawChrX, rawChrPref] = [] := by
  refine ⟨rfl, rfl, by decide, by decide⟩

/-- C6 amended. Cleaning coerces the chromosome column numerically:
every retained record's `temp_chr` token is the integer-string form of the
truncated numeric chromosome value of some input row (so `"1.0"`
collapses to `"1"` and no `"chr"` prefix survives), and every input row
whose chromosome cell fails numeric parsing (e.g. `"X"`, `"Y"`,
`"chr1"`) is dropped by the dropna check rather than normalized. -/
theorem chr_cleaning_normalization (sch : Schema) (raws : List RawRow)
    (hchr : sch.chr = true) :
    (∀ r ∈ cleanTable sch raws, r.temp_chr = toString r.chr ∧
        ∃ raw ∈ raws, ∃ q : ℚ, coerceCell raw.chr = some q ∧ r.chr = truncQ q) ∧
    (∀ raw ∈ raws, coerceCell raw.chr = none → keepRow sch raw = false) := by
  constructor
  · intro r hr
    refine ⟨(cleanTable_fields hr).2.2.2.2.2.2.2.1 hchr, ?_⟩
    obtain ⟨j, raw, hm, hk, rfl⟩ := mem_cleanRows hr
    have hs := (keepRow_fields hk).2.2.2.2.2.2.2.1 hchr
    obtain ⟨q, hq⟩ := Option.isSome_iff_exists.mp hs
    exact ⟨raw, hm, q, hq, by simp [toClean, hchr, hq]⟩
  · intro raw _ hnone
    simp [keepRow, hchr, hnone]

/-- Witness for C6 (amended): the retained row's token is `"1"`, and the
chromosome-`"X"` row is dropped. -/
theorem chr_cleaning_normalization_witness :
    (toClean fullSchema 0 rawGood).temp_chr = "1" ∧
    keepRow fullSchema rawChrX = false := by
  have h := chr_cleaning_normalization fullSchema [rawGood, rawChrX] rfl
  have h1 := (h.1 (toClean fullSchema 0 rawGood) (by decide)).1
  have h2 := h.2 rawChrX (by decide) (by decide)
  exact ⟨by rw [h1]; decide, h2⟩

/-- C7 counterexample. A table missing only the `chr` column — with
all eight remaining critical columns present and a nonempty cleaned
table — makes the pipeline raise an uncaught `KeyError` on the
unconditional `temp_chr` access, aborting the whole run instead of
skipping the file with a warning; this refutes "never fails outright". -/
theorem missing_chr_crashes_run :
    schemaNoChr.snp = true ∧ schemaNoChr.pos = true ∧ schemaNoChr.eaf = true ∧
    (cleanTable schemaNoChr [rawGood]).length = 1 ∧
    processTable defaultConfig loId loId schemaNoChr [rawGood] = .keyError 0 := by
  refine ⟨rfl, rfl, rfl, by decide, by decide⟩

/-- C7 amended. The dropna check does proceed with the reduced set
of critical columns actually present, but the pipeline survives column
absence only for `SNP`, the allele columns, `beta`, `se`, `pval` (and the
non-critical `samplesize`): whenever `chr`, `pos` and `eaf` are all
present the pipeline never raises `KeyError`, whereas a missing `chr`,
`pos` or `eaf` crashes the run on a nonempty cleaned table (see the
counterexample) rather than skipping the file. -/
theorem reduced_critical_columns_no_crash (cfg : Config)
    (lo_38_to_19 lo_19_to_38 : Chain) (sch : Schema) (raws : List RawRow)
    (hc : sch.chr = true) (hp : sch.pos = true) (he : sch.eaf = true) :
    ∀ n, processTable cfg lo_38_to_19 lo_19_to_38 sch raws ≠ .keyError n := by
  intro n h
  simp only [processTable] at h
  by_cases h0 : (cleanTable sch raws).isEmpty
  · rw [if_pos h0] at h; cases h
  rw [if_neg h0] at h
  by_cases hb : cfg.input_build == "hg38"
  · rw [if_pos hb, if_neg (by simp [hc]), if_neg (by simp [hp]),
      if_neg (by simp [he])] at h
    exact RunResult.noConfusion h
  · rw [if_neg hb] at h
    by_cases hb2 : cfg.input_build == "hg19"
    · rw [if_pos hb2, if_neg (by simp [hc]), if_neg (by simp [hp]),
        if_neg (by simp [he])] at h
      exact RunResult.noConfusion h
    · rw [if_neg hb2] at h
      exact RunResult.noConfusion h

/-- Witness for C7 (amended): with only the `SNP` column absent the
pipeline does not crash. -/
theorem reduced_critical_columns_no_crash_witness :
    processTable defaultConfig loId loId { fullSchema with snp := false }
      [rawGood] ≠ .keyError 0 :=
  reduced_critical_columns_no_crash defaultConfig loId loId
    { fullSchema with snp := false } [rawGood] rfl rfl rfl 0

/-- C5 counterexample. The resume check tests the *hg38*
(alternate-build, final-stage) output, not the reference-build output:
with `1.hg19/a.txt` already present but no `2.hg38/a.txt`, the file is
fully reprocessed — three writes and one Coordinate Mapper invocation —
refuting "if the reference-build output exists the file is skipped". -/
theorem skip_ignores_reference_build_output :
    exHg19Only "1.hg19/a.txt" = true ∧
    runOneFile defaultConfig loId loId exHg19Only "a.txt"
        (some (fullSchema, [rawGood])) =
      { skipped := false
        writes := ["1.hg19/a.txt", "3.FUMA/a.txt.gz", "2.hg38/a.txt"]
        mapperCalls := 1
        crashed := false } := by
  exact ⟨by decide, by decide⟩

/-- C5 amended. The completion marker is the final-stage
(hg38, alternate-build) output: when `2.hg38/<file>` exists the
orchestrator skips the file entirely — zero writes and zero Coordinate
Mapper invocations — and when it does not exist the file is fully
reprocessed from scratch, identically to a run over a clean output
directory. -/
theorem resume_skip_marker (cfg : Config) (lo_38_to_19 lo_19_to_38 : Chain)
    (existsFile : String → Bool) (fileName : String)
    (readResult : Option (Schema × List RawRow)) :
    (existsFile ("2.hg38/" ++ fileName) = true →
      runOneFile cfg lo_38_to_19 lo_19_to_38 existsFile fileName readResult =
        { skipped := true, writes := [], mapperCalls := 0, crashed := false }) ∧
    (existsFile ("2.hg38/" ++ fileName) = false →
      runOneFile cfg lo_38_to_19 lo_19_to_38 existsFile fileName readResult =
        runOneFile cfg lo_38_to_19 lo_19_to_38 (fun _ => false) fileName
          readResult) := by
  constructor
  · intro h
    simp [runOneFile, h]
  · intro h
    simp [runOneFile, h]

/-- Witness for C5 (amended): with `2.hg38/a.txt` present the file is
skipped with zero writes and zero mapper invocations. -/
theorem resume_skip_marker_witness :
    exHg38Only "2.hg38/a.txt" = true ∧
    runOneFile defaultConfig loId loId exHg38Only "a.txt"
        (some (fullSchema, [rawGood])) =
      { skipped := true, writes := [], mapperCalls := 0, crashed := false } := by
  have h := resume_skip_marker defaultConfig loId loId exHg38Only "a.txt"
    (some (fullSchema, [rawGood]))
  exact ⟨by decide, h.1 (by decide)⟩

/-- C3. With an hg38 input table, every row of the hg38
(alternate-build) export carries exactly the position of its cleaned
input row: step 6 restores the cached `pos_original` — which cleaning set
to the cleaned input position — instead of mapping hg19 coordinates back,
so the round-trip is lossless. -/
theorem hg38_export_restores_original_coordinates (cfg : Config)
    (lo_38_to_19 lo_19_to_38 : Chain) (sch : Schema) (raws : List RawRow)
    (out : PipeOutput) (hb : cfg.input_build = "hg38")
    (h : processTable cfg lo_38_to_19 lo_19_to_38 sch raws = .done out) :
    ∀ o ∈ out.hg38out, ∃ c ∈ cleanTable sch raws,
      c.idx = o.idx ∧ o.pos = c.pos_original ∧ c.pos_original = c.pos := by
  obtain ⟨hc, hp, he, hcase⟩ := processTable_done h
  rcases hcase with ⟨_, rfl⟩ | ⟨hb2, _⟩
  · intro o ho
    simp only [hg38Output] at ho
    obtain ⟨f, hf, rfl⟩ := List.mem_map.mp ho
    obtain ⟨hfb, _, _⟩ := mem_filters (by simpa [hg38Filtered] using hf)
    obtain ⟨c, hcmem, hlift⟩ := List.mem_filterMap.mp hfb
    obtain ⟨p, _, rfl⟩ := liftStep_eq_some hlift
    exact ⟨c, hcmem, rfl, rfl, (cleanTable_fields hcmem).2.2.2.2.2.2.2.2⟩
  · exact absurd (hb.symm.trans hb2) (by decide)

/-- Witness for C3 with a shifting 38→19 chain: the exported hg38 row at
index 0 recovers input position 100, even though its hg19 position was
107. -/
theorem hg38_export_restores_original_coordinates_witness :
    ∃ c ∈ cleanTable fullSchema [rawGood],
      c.idx = (0 : ℕ) ∧ (100 : ℤ) = c.pos_original ∧ c.pos_original = c.pos := by
  have h := hg38_export_restores_original_coordinates defaultConfig loShift loId
    fullSchema [rawGood] (hg38Output defaultConfig loShift fullSchema [rawGood])
    rfl (by decide)
  exact h
    { idx := 0, snp := some "rs1", effect_allele := some "A",
      other_allele := some "G", eaf := some (3 / 10), beta := some (1 / 10),
      se := some (1 / 10), pval := some (1 / 2), chr := 1, pos := 100,
      samplesize := some "1000" } (by decide)

/-- The liftover pass keeps exactly the rows on which the chain reports a
hit, preserving the pandas index. -/
theorem filterMap_liftStep_map_idx (lo : Chain) (rows : List CleanRow)
    (hinv : ∀ r ∈ rows, r.temp_chr = toString r.chr) :
    (rows.filterMap (liftStep lo)).map CleanRow.idx =
      (rows.filter
        (fun r => (lo ("chr" ++ toString r.chr) r.pos).isSome)).map
        CleanRow.idx := by
  induction rows with
  | nil => simp
  | cons a as ih =>
    have ha := hinv a (List.mem_cons_self a as)
    have ih' := ih (fun r hr => hinv r (List.mem_cons_of_mem _ hr))
    rw [List.filterMap_cons, List.filter_cons]
    cases hq : lo ("chr" ++ a.temp_chr) a.pos with
    | none =>
      rw [show liftStep lo a = none by simp [liftStep, hq]]
      rw [if_neg (by simp [← ha, hq])]
      exact ih'
    | some p =>
      rw [show liftStep lo a = some { a with pos := p } by simp [liftStep, hq]]
      rw [if_pos (by simp [← ha, hq])]
      simpa using ih'

/-- C8. The alternate-build (hg38) export describes the same variant
set as the reference-build (hg19) export minus exactly the rows whose
coordinate had no hg19→hg38 mapping; with an hg38 input no second mapping
pass occurs and the two exports list exactly the same variants (same
pandas indices, in order). -/
theorem export_variant_sets (cfg : Config) (lo_38_to_19 lo_19_to_38 : Chain)
    (sch : Schema) (raws : List RawRow) (out : PipeOutput)
    (h : processTable cfg lo_38_to_19 lo_19_to_38 sch raws = .done out) :
    (cfg.input_build = "hg38" →
      out.hg38out.map OutRow.idx = out.hg19out.map OutRow.idx) ∧
    (cfg.input_build = "hg19" →
      out.hg38out.map OutRow.idx =
        (out.hg19out.filter
          (fun o => (lo_19_to_38 ("chr" ++ toString o.chr) o.pos).isSome)).map
          OutRow.idx) := by
  obtain ⟨hc, hp, he, hcase⟩ := processTable_done h
  rcases hcase with ⟨hb, rfl⟩ | ⟨hb, rfl⟩
  · refine ⟨fun _ => ?_, fun hb2 => absurd (hb.symm.trans hb2) (by decide)⟩
    simp only [hg38Output]
    rw [List.map_map, List.map_map]
    rfl
  · refine ⟨fun hb2 => absurd (hb.symm.trans hb2) (by decide), fun _ => ?_⟩
    have hinv : ∀ r ∈ hg19Filtered cfg sch raws, r.temp_chr = toString r.chr := by
      intro r hr
      have hm := mem_filters (by simpa [hg19Filtered] using hr)
      exact (cleanTable_fields hm.1).2.2.2.2.2.2.2.1 hc
    simp only [hg19Output]
    rw [List.map_map, List.filter_map, List.map_map]
    exact filterMap_liftStep_map_idx lo_19_to_38 _ hinv

/-- Witness for C8: with an hg38 input the two exports carry the same
index list. -/
theorem export_variant_sets_witness :
    (hg38Output defaultConfig loId fullSchema [rawGood]).hg38out.map OutRow.idx =
      (hg38Output defaultConfig loId fullSchema [rawGood]).hg19out.map
        OutRow.idx := by
  have h := export_variant_sets defaultConfig loId loId fullSchema [rawGood]
    (hg38Output defaultConfig loId fullSchema [rawGood]) (by decide)
  exact h.1 rfl

/-- A record that passes the MAF filter with a positive threshold has its
allele frequency inside `[t, 1 - t] ⊆ [0, 1]`. -/
theorem maf_pass_bounds {t q : ℚ} (ht : 0 < t) (hm : ¬ min q (1 - q) < t) :
    t ≤ q ∧ q ≤ 1 - t ∧ 0 ≤ q ∧ q ≤ 1 := by
  rw [not_lt, le_min_iff] at hm
  exact ⟨hm.1, by linarith [hm.2], by linarith [hm.1], by linarith [hm.2]⟩

/-- Rows surviving both filters over a base whose `eaf` values come from
the cleaned table have an in-range allele frequency. -/
theorem filtered_row_eaf {cfg : Config} {sch : Schema} {raws : List RawRow}
    {base : List CleanRow}
    (hbase : ∀ r ∈ base, ∃ c ∈ cleanTable sch raws, r.eaf = c.eaf)
    (he : sch.eaf = true) (ht : 0 < cfg.maf_threshold) {r : CleanRow}
    (hr : r ∈ mafFilter cfg (regionFilter cfg base)) :
    ∃ q : ℚ, r.eaf = some q ∧ cfg.maf_threshold ≤ q ∧
      q ≤ 1 - cfg.maf_threshold ∧ 0 ≤ q ∧ q ≤ 1 := by
  obtain ⟨hb, _, hmaf⟩ := mem_filters hr
  obtain ⟨c, hcm, heq⟩ := hbase r hb
  have hsome : r.eaf.isSome = true := by
    rw [heq]; exact (cleanTable_fields hcm).2.2.2.1 he
  obtain ⟨q, hq⟩ := Option.isSome_iff_exists.mp hsome
  have hm : ¬ min q (1 - q) < cfg.maf_threshold := by
    intro hlt
    have : mask_low_maf cfg r = true :=
      mask_low_maf_eq_true.mpr (by simpa [hq] using hlt)
    rw [this] at hmaf
    cases hmaf
  obtain ⟨b1, b2, b3, b4⟩ := maf_pass_bounds ht hm
  exact ⟨q, hq, b1, b2, b3, b4⟩

/-- C9. For a positive MAF threshold `t`, every record in the hg19 or
hg38 export has `eaf ∈ [t, 1 - t] ⊆ [0, 1]`, and every FUMA row is one of
the hg19-export rows (by index): although cleaning never range-checks
`eaf`, an out-of-range `eaf` makes `min(eaf, 1 - eaf)` negative, so the
Frequency Filter always removes it before export. -/
theorem exported_eaf_within_thresholds (cfg : Config)
    (lo_38_to_19 lo_19_to_38 : Chain) (sch : Schema) (raws : List RawRow)
    (out : PipeOutput) (ht : 0 < cfg.maf_threshold)
    (h : processTable cfg lo_38_to_19 lo_19_to_38 sch raws = .done out) :
    (∀ o ∈ out.hg19out, ∃ q : ℚ, o.eaf = some q ∧
        cfg.maf_threshold ≤ q ∧ q ≤ 1 - cfg.maf_threshold ∧ 0 ≤ q ∧ q ≤ 1) ∧
    (∀ o ∈ out.hg38out, ∃ q : ℚ, o.eaf = some q ∧
        cfg.maf_threshold ≤ q ∧ q ≤ 1 - cfg.maf_threshold ∧ 0 ≤ q ∧ q ≤ 1) ∧
    (∀ fl, out.fuma = some fl → ∀ fr ∈ fl, ∃ o ∈ out.hg19out, o.idx = fr.idx) := by
  obtain ⟨hc, hp, he, hcase⟩ := processTable_done h
  rcases hcase with ⟨hb, rfl⟩ | ⟨hb, rfl⟩
  · have hbase : ∀ r ∈ (cleanTable sch raws).filterMap (liftStep lo_38_to_19),
        ∃ c ∈ cleanTable sch raws, r.eaf = c.eaf := by
      intro r hr
      obtain ⟨c, hcm, hlift⟩ := List.mem_filterMap.mp hr
      obtain ⟨p, _, rfl⟩ := liftStep_eq_some hlift
      exact ⟨c, hcm, rfl⟩
    refine ⟨?_, ?_, ?_⟩
    · intro o ho
      simp only [hg38Output] at ho
      obtain ⟨f, hf, rfl⟩ := List.mem_map.mp ho
      exact filtered_row_eaf hbase he ht (by simpa [hg38Filtered] using hf)
    · intro o ho
      simp only [hg38Output] at ho
      obtain ⟨f, hf, rfl⟩ := List.mem_map.mp ho
      exact filtered_row_eaf hbase he ht (by simpa [hg38Filtered] using hf)
    · intro fl hfl fr hfr
      simp only [hg38Output] at hfl ⊢
      by_cases hcols : fumaColsPresent sch = true
      · rw [if_pos hcols] at hfl
        obtain ⟨f, hf, rfl⟩ :=
          List.mem_map.mp ((Option.some_inj.mp hfl) ▸ hfr)
        exact ⟨toOutRow f, List.mem_map_of_mem toOutRow hf, rfl⟩
      · rw [if_neg hcols] at hfl
        cases hfl
  · have hbase : ∀ r ∈ cleanTable sch raws,
        ∃ c ∈ cleanTable sch raws, r.eaf = c.eaf :=
      fun r hr => ⟨r, hr, rfl⟩
    refine ⟨?_, ?_, ?_⟩
    · intro o ho
      simp only [hg19Output] at ho
      obtain ⟨f, hf, rfl⟩ := List.mem_map.mp ho
      exact filtered_row_eaf hbase he ht (by simpa [hg19Filtered] using hf)
    · intro o ho
      simp only [hg19Output] at ho
      obtain ⟨f, hf, rfl⟩ := List.mem_map.mp ho
      obtain ⟨g, hg, hlift⟩ := List.mem_filterMap.mp hf
      obtain ⟨p, _, rfl⟩ := liftStep_eq_some hlift
      exact filtered_row_eaf hbase he ht (by simpa [hg19Filtered] using hg)
    · intro fl hfl fr hfr
      simp only [hg19Output] at hfl ⊢
      by_cases hcols : fumaColsPresent sch = true
      · rw [if_pos hcols] at hfl
        obtain ⟨f, hf, rfl⟩ :=
          List.mem_map.mp ((Option.some_inj.mp hfl) ▸ hfr)
        exact ⟨toOutRow f, List.mem_map_of_mem toOutRow hf, rfl⟩
      · rw [if_neg hcols] at hfl
        cases hfl

/-- Witness for C9: the exported row of `rawGood` has
`eaf = 3/10 ∈ [1/100, 99/100]`. -/
theorem exported_eaf_within_thresholds_witness :
    ∃ q : ℚ,
      ({ idx := 0, snp := some "rs1", effect_allele := some "A",
         other_allele := some "G", eaf := some (3 / 10), beta := some (1 / 10),
         se := some (1 / 10), pval := some (1 / 2), chr := 1, pos := 100,
         samplesize := some "1000" } : OutRow).eaf = some q ∧
      defaultConfig.maf_threshold ≤ q ∧
      q ≤ 1 - defaultConfig.maf_threshold ∧ 0 ≤ q ∧ q ≤ 1 := by
  have h := exported_eaf_within_thresholds defaultConfig loId loId fullSchema
    [rawGood] (hg38Output defaultConfig loId fullSchema [rawGood])
    (by decide) (by decide)
  exact h.1 _ (by decide)

/-- C10. The FUMA (third-party-upload) export is generated exactly
when all nine source columns — including the optional `samplesize` — are
present, and then its rows are exactly the rows of the reference-build
(hg19) export, restricted and renamed to the fixed external schema; in
particular its `BP` column carries the hg19 positions of those rows. -/
theorem fuma_export_spec (cfg : Config) (lo_38_to_19 lo_19_to_38 : Chain)
    (sch : Schema) (raws : List RawRow) (out : PipeOutput)
    (h : processTable cfg lo_38_to_19 lo_19_to_38 sch raws = .done out) :
    (out.fuma.isSome = true ↔
      (sch.snp = true ∧ sch.chr = true ∧ sch.pos = true ∧
       sch.effect_allele = true ∧ sch.other_allele = true ∧
       sch.pval = true ∧ sch.beta = true ∧ sch.se = true ∧
       sch.samplesize = true)) ∧
    (∀ fl, out.fuma = some fl → fl = out.hg19out.map outRowToFuma) := by
  obtain ⟨hc, hp, he, hcase⟩ := processTable_done h
  have key : ∀ (filtered : List CleanRow),
      ((if fumaColsPresent sch then
          some (filtered.map toFumaRow) else none).isSome = true ↔
        (sch.snp = true ∧ sch.chr = true ∧ sch.pos = true ∧
         sch.effect_allele = true ∧ sch.other_allele = true ∧
         sch.pval = true ∧ sch.beta = true ∧ sch.se = true ∧
         sch.samplesize = true)) ∧
      (∀ fl, (if fumaColsPresent sch then
          some (filtered.map toFumaRow) else none) = some fl →
        fl = (filtered.map toOutRow).map outRowToFuma) := by
    intro filtered
    constructor
    · by_cases hcols : fumaColsPresent sch = true
      · rw [if_pos hcols]
        simp only [Option.isSome_some, true_iff]
        simpa [fumaColsPresent, Bool.and_eq_true, and_assoc] using hcols
      · rw [if_neg hcols]
        refine iff_of_false (by simp) ?_
        intro hall
        exact hcols (by simp [fumaColsPresent, hall.1, hall.2.1, hall.2.2.1,
          hall.2.2.2.1, hall.2.2.2.2.1, hall.2.2.2.2.2.1, hall.2.2.2.2.2.2.1,
          hall.2.2.2.2.2.2.2.1, hall.2.2.2.2.2.2.2.2])
    · intro fl hfl
      by_cases hcols : fumaColsPresent sch = true
      · rw [if_pos hcols] at hfl
        rw [← Option.some_inj.mp hfl, List.map_map]
        rfl
      · rw [if_neg hcols] at hfl
        cases hfl
  rcases hcase with ⟨hb, rfl⟩ | ⟨hb, rfl⟩
  · exact key (hg38Filtered cfg lo_38_to_19 sch raws)
  · exact key (hg19Filtered cfg sch raws)

/-- Witness for C10: with the full schema the FUMA export exists and
equals the renamed hg19 export. -/
theorem fuma_export_spec_witness :
    (hg38Output defaultConfig loId fullSchema [rawGood]).fuma.isSome = true ∧
    (∀ fl, (hg38Output defaultConfig loId fullSchema [rawGood]).fuma = some fl →
      fl = (hg38Output defaultConfig loId fullSchema [rawGood]).hg19out.map
        outRowToFuma) := by
  have h := fuma_export_spec defaultConfig loId loId fullSchema [rawGood]
    (hg38Output defaultConfig loId fullSchema [rawGood]) (by decide)
  exact ⟨h.1.mpr ⟨rfl, rfl, rfl, rfl, rfl, rfl, rfl, rfl, rfl⟩, h.2⟩

/-- Witness for C1 at the exact boundary of the default region: on
chromosome 6, a record at exactly `MHC_START` is removed while a record
at `MHC_START - 1` is retained. -/
theorem region_filter_mem_iff_witness :
    ({ toClean fullSchema 0 rawGood with temp_chr := "6", pos := 28477797 } ∉
      regionFilter defaultConfig
        [{ toClean fullSchema 0 rawGood with temp_chr := "6", pos := 28477797 }]) ∧
    ({ toClean fullSchema 0 rawGood with temp_chr := "6", pos := 28477796 } ∈
      regionFilter defaultConfig
        [{ toClean fullSchema 0 rawGood with temp_chr := "6", pos := 28477796 }]) := by
  constructor
  · intro hmem
    exact ((region_filter_mem_iff defaultConfig _ _).mp hmem).2 (by decide)
  · exact (region_filter_mem_iff defaultConfig _ _).mpr ⟨by decide, by decide⟩

/-- Witness for C2 at the exact threshold: a record with
`maf = 1/100 = threshold` is retained, one with `maf = 1/200` is
removed. -/
theorem maf_filter_mem_iff_witness :
    ({ toClean fullSchema 0 rawGood with eaf := some (1 / 100) } ∈
      mafFilter defaultConfig
        [{ toClean fullSchema 0 rawGood with eaf := some (1 / 100) }]) ∧
    ({ toClean fullSchema 0 rawGood with eaf := some (1 / 200) } ∉
      mafFilter defaultConfig
        [{ toClean fullSchema 0 rawGood with eaf := some (1 / 200) }]) := by
  constructor
  · exact (maf_filter_mem_iff defaultConfig _ _).mpr ⟨by decide, by decide⟩
  · intro hmem
    exact ((maf_filter_mem_iff defaultConfig _ _).mp hmem).2 (by decide)

end QC
